import Mathlib

/-!
Shallow embedding of `src/components/cache.py` (EmbyToAlist byte-range disk
cache).

Modelling choices, in order of appearance in the source:

* Every operation of the cache layer (`write_cache_file`, `read_cache_file`,
  `get_cache_status`) first maps the request's logical path and type to one
  cache directory `<cache_root>/<subdir>/<dirhash>` via
  `get_hash_subdirectory_from_path` (defined in `components/utils.py`, a pure
  deterministic function).  All claims concern a single request's directory,
  so the filesystem state is modelled as that one directory:
  `Option (List Entry)`, where `none` means the directory does not exist and
  the list is the directory listing in `os.listdir` order.
* A directory entry is either a data file `cache_file_{s}_{e}` (carrying its
  byte content) or a marker file `cache_file_{s}_{e}.tag`; those are the only
  files the component ever creates.  The name encodes the inclusive range, so
  entries carry the parsed `(s, e)` directly; offsets are `Int` because the
  Python code computes them with unbounded integer arithmetic
  (e.g. `cache_size - 1`).
* `aiofiles.os.remove` raises `FileNotFoundError` when the named file is
  absent; it is modelled as `os_remove`, returning `none` exactly in that
  case.  A `none` that the Python code does not catch becomes the outcome
  `PyRet.raised` (an exception escaping the operation).
* The upstream `client.get` is an oracle parameter: it either returns a full
  response (status code and body), raises before any body byte is written, or
  delivers a 206 and then raises midway through the body stream.
  `get_or_cache_alist_raw_url` is an external resolver returning a URL string;
  it is not modelled (no claim depends on the URL value), and the header
  fiddling on lines 122-130 of the source has no observable effect here.
* `asyncio` locks serialize writers per directory; the claims quantify over
  sequences of completed calls, so operations are modelled as sequential
  state transformers.
-/

set_option maxRecDepth 8192

namespace EmbyCache

/-- `CacheStatus`, the classification enum consumed from the HTTP layer.
`HIT`, `PART` (the source's in-between partial-hit status) and `HIT_TAIL` are
the write-eligible statuses; `MISS` stands for every other status, which
`write_cache_file` refuses. -/
inductive CacheStatus
  | HIT
  | PART
  | HIT_TAIL
  | MISS
deriving DecidableEq, Repr

/-- `FileInfo` (external, consumed): logical path, total size, configured head
cache size. -/
structure FileInfo where
  path : String
  size : Int
  cache_file_size : Int
deriving DecidableEq, Repr

/-- `RequestInfo` (external, consumed). -/
structure RequestInfo where
  file_info : FileInfo
  start_byte : Int
  end_byte : Int
  cache_status : CacheStatus
deriving DecidableEq, Repr

/-- One entry of the cache directory: `cache_file_{rs}_{re}` with its byte
content, or the zero-byte marker `cache_file_{rs}_{re}.tag`. -/
inductive Entry
  | cacheFile (rs re : Int) (data : List Nat)
  | tagFile (rs re : Int)
deriving DecidableEq, Repr

/-- Does this entry bear the data-file name `cache_file_{s}_{e}` (i.e. it
starts with `cache_file_` and does not end in `.tag`, and its name parses to
the range `(s, e)`)? -/
def isCacheName (s e : Int) : Entry → Bool
  | .cacheFile s' e' _ => s == s' && e == e'
  | .tagFile _ _ => false

/-- Does this entry bear the marker name `cache_file_{s}_{e}.tag`? -/
def isTagName (s e : Int) : Entry → Bool
  | .tagFile s' e' => s == s' && e == e'
  | .cacheFile _ _ _ => false

/-- Is this entry a marker file (name ends in `.tag`)? -/
def isTag : Entry → Bool
  | .tagFile _ _ => true
  | .cacheFile _ _ _ => false

/-- `aiofiles.os.remove` on the (unique) file whose name satisfies `p`:
removes it if present, raises `FileNotFoundError` (`none`) otherwise. -/
def os_remove (p : Entry → Bool) (entries : List Entry) : Option (List Entry) :=
  if entries.any p then some (entries.filter fun x => !(p x)) else none

/-- `aiofiles.open(cache_write_tag_path, 'w')`: creates the zero-byte marker
file, or truncates it (a no-op on a zero-byte file) when it already exists. -/
def createTag (s e : Int) (entries : List Entry) : List Entry :=
  if entries.any (isTagName s e) then entries else entries ++ [.tagFile s e]

/-- `aiofiles.open(cache_file_path, 'wb')` followed by writing `body`:
replaces the content of an existing `cache_file_{s}_{e}`, or creates it. -/
def writeDataFile (s e : Int) (body : List Nat) (entries : List Entry) : List Entry :=
  if entries.any (isCacheName s e) then
    entries.map fun x => if isCacheName s e x then .cacheFile s e body else x
  else entries ++ [.cacheFile s e body]

/-- Lines 82-89 of the source: the target range derived from the cache
status.  `HIT`/`PART` force `start_point = 0` and `end_point = cache_size - 1`
(the head cache); `HIT_TAIL` keeps `start_byte` and ends at `file_size - 1`;
any other status hits the `else` branch (bare `return`). -/
def deriveRange (req : RequestInfo) : Option (Int × Int) :=
  match req.cache_status with
  | .HIT => some (0, req.file_info.cache_file_size - 1)
  | .PART => some (0, req.file_info.cache_file_size - 1)
  | .HIT_TAIL => some (req.start_byte, req.file_info.size - 1)
  | .MISS => none

/-- Behaviour of the upstream `client.get` for the range request: a complete
response with a status code and body, an exception raised by the call itself,
or a 206 whose body stream raises after `bodySoFar` bytes were written. -/
inductive FetchResult
  | resp (status : Nat) (body : List Nat)
  | exn
  | interrupted (bodySoFar : List Nat)
deriving DecidableEq, Repr

/-- How a Python call ends: a normal `return` (`value none` is Python's
`None`, from a bare `return`; `value (some b)` is `return b`), or an
exception escaping the call. -/
inductive PyRet
  | value (v : Option Bool)
  | raised
deriving DecidableEq, Repr

/-- Outcome of one `write_cache_file` call: how it returned, the final state
of the cache directory, and whether the upstream range GET was issued. -/
structure WriteResult where
  ret : PyRet
  dir : Option (List Entry)
  fetched : Bool
deriving DecidableEq, Repr

/-- Outcome of the overlap-resolution loop (source lines 110-120). -/
inductive OverlapOut
  | subsumed (cur : List Entry)
  | proceed (cur : List Entry)
  | raisedFNF (cur : List Entry)
deriving DecidableEq, Repr

/-- Source lines 110-120: iterate over the `os.listdir` snapshot; for each
data file `cache_file_{s'}_{e'}` (markers are skipped by the
`endswith('.tag')` test), abort when it subsumes the target range
(`start_point >= s' and end_point <= e'`), delete it when the target range
supersedes it (`start_point <= s' and end_point >= e'`).  `cur` is the live
directory, mutated by the deletions; the snapshot is fixed. -/
def overlapLoop (s e : Int) : List Entry → List Entry → OverlapOut
  | [], cur => .proceed cur
  | .tagFile _ _ :: rest, cur => overlapLoop s e rest cur
  | .cacheFile s' e' _ :: rest, cur =>
    if s' ≤ s ∧ e ≤ e' then .subsumed cur
    else if s ≤ s' ∧ e' ≤ e then
      match os_remove (isCacheName s' e') cur with
      | some cur' => overlapLoop s e rest cur'
      | none => .raisedFNF cur
    else overlapLoop s e rest cur

/-- Source lines 149-154, the `except` handler: remove the cache file, then
the marker, then `return False`.  Either removal raises `FileNotFoundError`
when its file is absent, and that exception is not caught. -/
def exceptCleanup (s e : Int) (cur : List Entry) : WriteResult :=
  match os_remove (isCacheName s e) cur with
  | none => ⟨.raised, some cur, true⟩
  | some cur' =>
    match os_remove (isTagName s e) cur' with
    | none => ⟨.raised, some cur', true⟩
    | some cur'' => ⟨.value (some false), some cur'', true⟩

/-- Source lines 132-154, the `try` block: issue the range GET (`client.get`)
and require a 206 (otherwise `raise ValueError`, caught by the handler
below); on a 206 stream the body into the cache file and remove the marker
(`return True`); on any exception run the cleanup handler. -/
def writeFetchStage (s e : Int) (fetch : Int → Int → FetchResult)
    (cur : List Entry) : WriteResult :=
  match fetch s e with
  | .exn => exceptCleanup s e cur
  | .interrupted bodySoFar => exceptCleanup s e (writeDataFile s e bodySoFar cur)
  | .resp status body =>
    if status = 206 then
      match os_remove (isTagName s e) (writeDataFile s e body cur) with
      | some cur'' => ⟨.value (some true), some cur'', true⟩
      | none => ⟨.raised, some (writeDataFile s e body cur), true⟩
    else exceptCleanup s e cur

/-- Source lines 104-154, the critical section under the per-directory lock:
the marker file has just been created, yielding listing `entries1`; run the
overlap-resolution loop over the `os.listdir` snapshot (`entries1` again);
on a subsumption abort remove the marker and `return False`; otherwise fetch
and write. -/
def writeLockedStage (s e : Int) (fetch : Int → Int → FetchResult)
    (entries1 : List Entry) : WriteResult :=
  match overlapLoop s e entries1 entries1 with
  | .raisedFNF cur => ⟨.raised, some cur, false⟩
  | .subsumed cur =>
    match os_remove (isTagName s e) cur with
    | some cur' => ⟨.value (some false), some cur', false⟩
    | none => ⟨.raised, some cur, false⟩
  | .proceed cur => writeFetchStage s e fetch cur

/-- Source lines 61-154, `write_cache_file`: derive the target range from the
status (bare `return` on an unrecognized status, before any filesystem
access); resolve the upstream URL (external, not modelled); `os.makedirs(...,
exist_ok=True)` — `dir0.getD []`; create the marker file; then the locked
section. -/
def write_cache_file (req : RequestInfo) (fetch : Int → Int → FetchResult)
    (dir0 : Option (List Entry)) : WriteResult :=
  match deriveRange req with
  | none => ⟨.value none, dir0, false⟩
  | some (s, e) => writeLockedStage s e fetch (createTag s e (dir0.getD []))

/-- Source line 174: the end point handed to `read_file` — `None` for
`PARTIAL`/`HIT_TAIL` (read to end of the cache file), otherwise the relative
value `end_byte - start_byte`. -/
def adjustedEndPoint (req : RequestInfo) : Option Int :=
  if req.cache_status = .PART ∨ req.cache_status = .HIT_TAIL then none
  else some (req.end_byte - req.start_byte)

/-- Outcome of `read_cache_file`: `FileNotFoundError` escaping from
`os.listdir` on a missing directory, Python `None` when no entry matches, or
the `read_file` generator — captured by its arguments: the chosen file's
content, the on-disk start offset `start_byte - range_start`, and the end
point. -/
inductive ReadCacheResult
  | raised
  | noneResult
  | stream (data : List Nat) (offset : Int) (endPoint : Option Int)
deriving DecidableEq, Repr

/-- Source lines 169-181: first data file whose inclusive range contains
`start_byte` wins; markers are skipped by the `endswith('.tag')` test. -/
def findCacheStream (req : RequestInfo) : List Entry → ReadCacheResult
  | [] => .noneResult
  | .cacheFile s' e' data :: rest =>
    if s' ≤ req.start_byte ∧ req.start_byte ≤ e' then
      .stream data (req.start_byte - s') (adjustedEndPoint req)
    else findCacheStream req rest
  | .tagFile _ _ :: rest => findCacheStream req rest

/-- Source lines 157-181, `read_cache_file`: `os.listdir` on the cache
directory (raises `FileNotFoundError` when it does not exist — there is no
existence check), then scan for a covering file. -/
def read_cache_file (req : RequestInfo) (dir : Option (List Entry)) : ReadCacheResult :=
  match dir with
  | none => .raised
  | some entries => findCacheStream req entries

/-- Does this directory entry cover `start_byte`?  In `get_cache_status` the
scan is only reached when no marker exists, so markers answer `false`. -/
def rangeHit (start_byte : Int) : Entry → Bool
  | .cacheFile s' e' _ => decide (s' ≤ start_byte) && decide (start_byte ≤ e')
  | .tagFile _ _ => false

/-- Source lines 183-210, `get_cache_status`: `false` when the directory does
not exist, `false` when any `.tag` file is present, otherwise `true` iff some
data file's inclusive range contains `start_byte`. -/
def get_cache_status (req : RequestInfo) (dir : Option (List Entry)) : Bool :=
  match dir with
  | none => false
  | some entries =>
    if entries.any isTag then false
    else entries.any (rangeHit req.start_byte)

/-- Source lines 44-55, the body of `read_file`'s `while True` loop, at file
position `pos`.  With an end point: `remaining = (end_point+1) - f.tell()`,
break when it is `≤ 0`, else shrink `chunk_size` to `min chunk_size
remaining` (the shrunken value persists into later iterations, as in the
source).  Then read up to `chunk_size` bytes, break on empty, else yield and
advance.  `fuel` bounds the iteration count; every yielded chunk is non-empty
so the position strictly advances and `content.length - pos + 1` iterations
always suffice (see `readLoop_fuel_irrelevant`-style lemmas below). -/
def readLoop (content : List Nat) (endPoint : Option Int) :
    Nat → Nat → Nat → List (List Nat)
  | _, _, 0 => []
  | chunkSize, pos, fuel + 1 =>
    match endPoint with
    | some e =>
      if e + 1 - (pos : Int) ≤ 0 then []
      else
        let cs := min chunkSize (e + 1 - (pos : Int)).toNat
        let data := (content.drop pos).take cs
        if data.isEmpty then []
        else data :: readLoop content endPoint cs (pos + data.length) fuel
    | none =>
      let data := (content.drop pos).take chunkSize
      if data.isEmpty then []
      else data :: readLoop content endPoint chunkSize (pos + data.length) fuel

/-- Source lines 25-59, `read_file`: open the file (its bytes are `content`),
seek to `start`, then run the chunk loop.  The chunk list is the sequence of
byte-chunks the generator yields. -/
def read_file (content : List Nat) (start : Nat) (endPoint : Option Int)
    (chunkSize : Nat := 1024 * 1024) : List (List Nat) :=
  readLoop content endPoint chunkSize start (content.length - start + 1)

/-- Bool-valued pairwise predicate over a directory listing. -/
def pairwiseB (r : Entry → Entry → Bool) : List Entry → Bool
  | [] => true
  | x :: xs => xs.all (r x) && pairwiseB r xs

/-- Two entries have disjoint ranges unless both are data files whose
inclusive ranges intersect. -/
def rangeDisj : Entry → Entry → Bool
  | .cacheFile s1 e1 _, .cacheFile s2 e2 _ => decide (e1 < s2 ∨ e2 < s1)
  | _, _ => true

/-- Two entries are containment-free unless both are data files and one range
contains the other (equal ranges contain each other). -/
def rangeNC : Entry → Entry → Bool
  | .cacheFile s1 e1 _, .cacheFile s2 e2 _ =>
    decide (¬(s1 ≤ s2 ∧ e2 ≤ e1)) && decide (¬(s2 ≤ s1 ∧ e1 ≤ e2))
  | _, _ => true

/-- The listing of a possibly missing directory (empty when absent). -/
def dirEntries (dir : Option (List Entry)) : List Entry := dir.getD []

/-! ### Concrete scenario data shared by several claims -/

/-- A 3000-byte media file with a 1000-byte head-cache configuration. -/
def fileA : FileInfo := ⟨"/media/movie.mkv", 3000, 1000⟩

/-- A `HIT` request on `fileA` for bytes 500-1499; the derived write range is
the head `[0, 999]`. -/
def reqHIT : RequestInfo := ⟨fileA, 500, 1499, .HIT⟩

/-- A request on `fileA` with the unrecognized status `MISS`. -/
def reqMiss : RequestInfo := ⟨fileA, 500, 999, .MISS⟩

/-- A 2000-byte media file with a 1000-byte head-cache configuration. -/
def fileB : FileInfo := ⟨"/media/show.mkv", 2000, 1000⟩

/-- A `HIT` request on `fileB`; derived write range `[0, 999]`. -/
def reqHead : RequestInfo := ⟨fileB, 0, 999, .HIT⟩

/-- A `HIT_TAIL` request on `fileB` starting at byte 500; derived write range
`[500, 1999]`. -/
def reqTail : RequestInfo := ⟨fileB, 500, 1999, .HIT_TAIL⟩

/-- First completed write on `fileB`'s (initially empty) cache directory: a
head write that succeeds with a 206. -/
def wHead : WriteResult := write_cache_file reqHead (fun _ _ => .resp 206 [1]) (some [])

/-- Second completed write on the same directory: a tail write for
`[500, 1999]` that also succeeds with a 206. -/
def wTail : WriteResult := write_cache_file reqTail (fun _ _ => .resp 206 [2]) wHead.dir

/-! ### Claim theorems (part 1) -/

/-- C1: the claim says every failure of the writer and the reader is absorbed
and surfaced as a status value.  The code violates this: on an upstream
non-206 response (first conjunct) and on a network exception raised by
`client.get` (second conjunct) the `except` handler removes the target cache
file, which was never created, so `aiofiles.os.remove` raises an uncaught
`FileNotFoundError`; and `read_cache_file` calls `os.listdir` on a missing
cache directory without any guard (third conjunct).  In all three cases an
exception escapes to the caller. -/
theorem write_read_failures_raise :
    (write_cache_file reqHIT (fun _ _ => .resp 200 []) (some [])).ret = .raised
    ∧ (write_cache_file reqHIT (fun _ _ => .exn) (some [])).ret = .raised
    ∧ read_cache_file reqHIT none = .raised :=
  ⟨rfl, rfl, rfl⟩

/-- C2: the claim says no tag file for the attempt's target range survives a
completed write attempt.  After a `HIT` write attempt into an empty directory
whose upstream answers 200 instead of 206, the cleanup handler raises before
reaching the tag removal, and `cache_file_0_999.tag` is left in the
directory. -/
theorem tag_file_survives_failed_write :
    (write_cache_file reqHIT (fun _ _ => .resp 200 []) (some [])).dir
      = some [.tagFile 0 999] :=
  rfl

/-- C3 counterexample: two successfully completed writes on the same
directory — a head write producing `cache_file_0_999` and a tail write
producing `cache_file_500_1999` — leave two cache files whose inclusive
ranges overlap, refuting the claimed pairwise-disjointness invariant.  The
tail range neither subsumes nor is subsumed by the head range, so the
overlap-resolution loop lets it through. -/
theorem write_overlap_counterexample :
    wHead.ret = .value (some true)
    ∧ wTail.ret = .value (some true)
    ∧ wTail.dir = some [.cacheFile 0 999 [1], .cacheFile 500 1999 [2]]
    ∧ pairwiseB rangeDisj (dirEntries wTail.dir) = false :=
  ⟨rfl, rfl, rfl, rfl⟩

/-- C4: from an empty directory, a successful `HIT` write with
`cache_file_size = 1000` creates `cache_file_0_999` holding the fetched
bytes; `get_cache_status` for `start_byte = 500` then answers `true`; and
`read_cache_file` for the same request returns the `read_file` stream over
`cache_file_0_999` starting at on-disk offset `500 - 0 = 500` (with the
relative end point `end_byte - start_byte = 999`), whose chunks concatenate
to exactly the cached bytes from offset 500 on. -/
theorem head_write_then_probe_then_read :
    (write_cache_file reqHIT (fun _ _ => .resp 206 (List.range 1000)) (some [])).ret
      = .value (some true)
    ∧ (write_cache_file reqHIT (fun _ _ => .resp 206 (List.range 1000)) (some [])).dir
      = some [.cacheFile 0 999 (List.range 1000)]
    ∧ get_cache_status reqHIT (some [.cacheFile 0 999 (List.range 1000)]) = true
    ∧ read_cache_file reqHIT (some [.cacheFile 0 999 (List.range 1000)])
      = .stream (List.range 1000) 500 (some 999)
    ∧ (read_file (List.range 1000) 500 (some 999)).flatten = (List.range 1000).drop 500 :=
  ⟨rfl, rfl, rfl, rfl, rfl⟩

/-- C5 counterexample: the directory holds `cache_file_5_6` and
`cache_file_0_9`, and the write's target range `[0, 9]` is fully contained in
`cache_file_0_9`.  The claim says such a call leaves the filesystem
unchanged, but the loop reaches `cache_file_5_6` first, finds it superseded
and deletes it before the subsumption abort fires: the call returns `False`
yet the directory has lost a cache file. -/
theorem subsumed_write_deletes_file :
    write_cache_file ⟨⟨"/media/clip.mkv", 100, 10⟩, 0, 9, .HIT⟩ (fun _ _ => .exn)
        (some [.cacheFile 5 6 [9], .cacheFile 0 9 [8]])
      = ⟨.value (some false), some [.cacheFile 0 9 [8]], false⟩
    ∧ [Entry.cacheFile 5 6 [9], Entry.cacheFile 0 9 [8]] ≠ [Entry.cacheFile 0 9 [8]] :=
  ⟨rfl, by decide⟩

/-- C6: writing the derived range `[0, 999]` over a directory holding
`cache_file_500_600` deletes that file during the pre-fetch overlap loop
(second conjunct: the loop's output directory no longer contains it) and, on
a successful 206 fetch, leaves `cache_file_0_999` as the single cache file. -/
theorem supersede_write_replaces_file (d body : List Nat) :
    write_cache_file reqHead (fun _ _ => .resp 206 body) (some [.cacheFile 500 600 d])
      = ⟨.value (some true), some [.cacheFile 0 999 body], true⟩
    ∧ overlapLoop 0 999 [.cacheFile 500 600 d, .tagFile 0 999]
        [.cacheFile 500 600 d, .tagFile 0 999] = .proceed [.tagFile 0 999] :=
  ⟨rfl, rfl⟩

/-- C7 counterexample: for the unrecognized status `MISS` the source executes
a bare `return`, so the call yields Python `None` — not the boolean `False`
the claim (and the declared `-> bool` signature) promises. -/
theorem unrecognized_status_returns_none :
    (write_cache_file reqMiss (fun _ _ => .resp 206 []) (some [])).ret ≠ .value (some false)
    ∧ write_cache_file reqMiss (fun _ _ => .resp 206 []) (some [])
      = ⟨.value none, some [], false⟩ :=
  ⟨by decide, rfl⟩

/-- C7 amended: on an unrecognized cache status, `write_cache_file` returns
`None` (an absent value, not boolean `False`) and performs no filesystem
mutation — the refusal happens before any directory, cache file or tag file
is touched, and no upstream GET is issued. -/
theorem write_unrecognized_refuses (req : RequestInfo) (fetch : Int → Int → FetchResult)
    (dir0 : Option (List Entry)) (h : req.cache_status = .MISS) :
    write_cache_file req fetch dir0 = ⟨.value none, dir0, false⟩ := by
  simp [write_cache_file, deriveRange, h]

/-- Witness for `write_unrecognized_refuses` at a concrete refused request. -/
theorem write_unrecognized_refuses_witness :
    write_cache_file reqMiss (fun _ _ => .exn) (some []) = ⟨.value none, some [], false⟩ :=
  write_unrecognized_refuses reqMiss (fun _ _ => .exn) (some []) rfl

/-- In every branch, the cleanup handler reports some directory state. -/
theorem exceptCleanup_dir_some (s e : Int) (cur : List Entry) :
    (exceptCleanup s e cur).dir ≠ none := by
  unfold exceptCleanup
  split
  · simp
  · split <;> simp

/-- The fetch-and-write stage always reports some directory state. -/
theorem writeFetchStage_dir_some (s e : Int) (fetch : Int → Int → FetchResult)
    (cur : List Entry) : (writeFetchStage s e fetch cur).dir ≠ none := by
  unfold writeFetchStage
  split
  · exact exceptCleanup_dir_some _ _ _
  · exact exceptCleanup_dir_some _ _ _
  · split
    · split <;> simp
    · exact exceptCleanup_dir_some _ _ _

/-- The locked section always reports some directory state. -/
theorem writeLockedStage_dir_some (s e : Int) (fetch : Int → Int → FetchResult)
    (entries1 : List Entry) : (writeLockedStage s e fetch entries1).dir ≠ none := by
  unfold writeLockedStage
  split
  · simp
  · split <;> simp
  · exact writeFetchStage_dir_some _ _ _ _

/-- C10: for every write-eligible cache status the cache directory exists
once `write_cache_file` finishes, whatever the outcome — `os.makedirs(...,
exist_ok=True)` runs before the lock is taken, nothing ever removes the
directory, and every later branch (subsumption abort, fetch error, success,
or an escaping exception) reports an existing directory. -/
theorem write_dir_exists_after (req : RequestInfo) (fetch : Int → Int → FetchResult)
    (dir0 : Option (List Entry))
    (h : req.cache_status = .HIT ∨ req.cache_status = .PART
      ∨ req.cache_status = .HIT_TAIL) :
    (write_cache_file req fetch dir0).dir ≠ none := by
  have hr : ∃ p, deriveRange req = some p := by
    rcases h with h | h | h <;> simp [deriveRange, h]
  obtain ⟨⟨s, e⟩, hr⟩ := hr
  simp only [write_cache_file, hr]
  exact writeLockedStage_dir_some _ _ _ _

/-- Witness for `write_dir_exists_after`: a `HIT` write into a missing
directory (the fetch raises, yet the directory exists afterwards). -/
theorem write_dir_exists_after_witness :
    (write_cache_file reqHIT (fun _ _ => .exn) none).dir ≠ none :=
  write_dir_exists_after reqHIT (fun _ _ => .exn) none (Or.inl rfl)

/-! ### `read_file` stream lemmas (claims C8, C9) -/

/-- Every chunk the loop yields is non-empty (the loop breaks on empty reads)
and no longer than the current chunk size, which only ever shrinks. -/
theorem readLoop_chunk_bounds (content : List Nat) :
    ∀ (fuel : Nat) (endPoint : Option Int) (cs pos : Nat) (c : List Nat),
      c ∈ readLoop content endPoint cs pos fuel → c ≠ [] ∧ c.length ≤ cs := by
  intro fuel
  induction fuel with
  | zero =>
    intro ep cs pos c hc
    simp [readLoop] at hc
  | succ n ih =>
    intro ep cs pos c hc
    match ep with
    | some e =>
      rw [readLoop] at hc
      by_cases h1 : e + 1 - (pos : Int) ≤ 0
      · simp [h1] at hc
      · rw [if_neg h1] at hc
        by_cases h2 : ((content.drop pos).take (min cs (e + 1 - (pos : Int)).toNat)).isEmpty
        · rw [if_pos h2] at hc
          simp at hc
        · rw [if_neg h2] at hc
          rcases List.mem_cons.mp hc with rfl | hc
          · refine ⟨by simpa using h2, ?_⟩
            exact Nat.le_trans (List.length_take_le _ _) (Nat.min_le_left _ _)
          · have h3 := ih (some e) _ _ c hc
            exact ⟨h3.1, h3.2.trans (Nat.min_le_left _ _)⟩
    | none =>
      rw [readLoop] at hc
      by_cases h2 : ((content.drop pos).take cs).isEmpty
      · rw [if_pos h2] at hc
        simp at hc
      · rw [if_neg h2] at hc
        rcases List.mem_cons.mp hc with rfl | hc
        · exact ⟨by simpa using h2, List.length_take_le _ _⟩
        · exact ih none _ _ c hc

/-- C9: every chunk yielded by `read_file` is non-empty and at most
`chunkSize` long, for every file content, start point and optional end
point. -/
theorem read_file_chunk_bounds (content : List Nat) (start : Nat)
    (endPoint : Option Int) (chunkSize : Nat) :
    ∀ c ∈ read_file content start endPoint chunkSize, c ≠ [] ∧ c.length ≤ chunkSize :=
  fun c hc => readLoop_chunk_bounds content _ endPoint chunkSize start c hc

/-- Witness for `read_file_chunk_bounds`: on the 3-byte file `[1, 2, 3]` read
from the start with chunk size 2, the first yielded chunk is `[1, 2]`. -/
theorem read_file_chunk_bounds_witness : [1, 2] ≠ ([] : List Nat) ∧ [1, 2].length ≤ 2 :=
  read_file_chunk_bounds [1, 2, 3] 0 none 2 [1, 2] (by decide)

/-- With an end point, the chunks of the read loop concatenate to the bytes
from the current position up to the inclusive end point (clipped to the
file), provided the fuel exceeds the number of bytes left. -/
theorem readLoop_flatten_some (content : List Nat) (e : Int) :
    ∀ (fuel cs pos : Nat), content.length - pos < fuel → 0 < cs →
      (readLoop content (some e) cs pos fuel).flatten
        = (content.drop pos).take (e + 1 - (pos : Int)).toNat := by
  intro fuel
  induction fuel with
  | zero => intro cs pos hf hcs; omega
  | succ n ih =>
    intro cs pos hf hcs
    rw [readLoop]
    by_cases h1 : e + 1 - (pos : Int) ≤ 0
    · rw [if_pos h1]
      have h0 : (e + 1 - (pos : Int)).toNat = 0 := by omega
      simp [h0]
    · rw [if_neg h1]
      have htn : 0 < (e + 1 - (pos : Int)).toNat := by omega
      have hcs' : 0 < min cs (e + 1 - (pos : Int)).toNat := by
        exact Nat.lt_min.mpr ⟨hcs, htn⟩
      by_cases h2 : ((content.drop pos).take (min cs (e + 1 - (pos : Int)).toNat)).isEmpty
      · rw [if_pos h2]
        have hnil : content.drop pos = [] := by
          rcases List.take_eq_nil_iff.mp (List.isEmpty_iff.mp h2) with h | h
          · omega
          · exact h
        simp [hnil]
      · rw [if_neg h2]
        set cs' := min cs (e + 1 - (pos : Int)).toNat with hcsdef
        set data := (content.drop pos).take cs' with hdata
        set k := data.length with hk
        have hkpos : 0 < k := by
          have : data ≠ [] := by simpa using h2
          exact List.length_pos.mpr this
        have hdropne : content.drop pos ≠ [] := by
          intro h
          apply (by simpa using h2 : data ≠ [])
          rw [hdata, h, List.take_nil]
        have hposlt : pos < content.length := by
          by_contra h
          exact hdropne (List.drop_eq_nil_iff.mpr (by omega))
        have hklen : k = min cs' (content.length - pos) := by
          rw [hk, hdata, List.length_take, List.length_drop]
        have hkle : k ≤ (e + 1 - (pos : Int)).toNat := by
          have : k ≤ cs' := by omega
          omega
        rw [List.flatten_cons]
        rw [ih cs' (pos + k) (by omega) hcs']
        have hdd : content.drop (pos + k) = (content.drop pos).drop k := by
          rw [List.drop_drop]
        have htake : (content.drop pos).take ((e + 1 - (pos : Int)).toNat)
            = data ++ ((content.drop pos).drop k).take ((e + 1 - (pos : Int)).toNat - k) := by
          have hsplit : (e + 1 - (pos : Int)).toNat = k + ((e + 1 - (pos : Int)).toNat - k) := by
            omega
          conv_lhs => rw [hsplit]
          rw [List.take_add]
          congr 1
          rw [hdata, List.take_eq_take, List.length_drop]
          omega
        have harith : (e + 1 - ((pos + k : Nat) : Int)).toNat
            = (e + 1 - (pos : Int)).toNat - k := by
          push_cast
          omega
        rw [hdd, harith, htake]

/-- Without an end point, the chunks of the read loop concatenate to the
whole remainder of the file, provided the fuel exceeds the bytes left. -/
theorem readLoop_flatten_none (content : List Nat) :
    ∀ (fuel cs pos : Nat), content.length - pos < fuel → 0 < cs →
      (readLoop content none cs pos fuel).flatten = content.drop pos := by
  intro fuel
  induction fuel with
  | zero => intro cs pos hf hcs; omega
  | succ n ih =>
    intro cs pos hf hcs
    rw [readLoop]
    by_cases h2 : ((content.drop pos).take cs).isEmpty
    · rw [if_pos h2]
      have hnil : content.drop pos = [] := by
        rcases List.take_eq_nil_iff.mp (List.isEmpty_iff.mp h2) with h | h
        · omega
        · exact h
      simp [hnil]
    · rw [if_neg h2]
      set data := (content.drop pos).take cs with hdata
      set k := data.length with hk
      have hkpos : 0 < k := by
        have : data ≠ [] := by simpa using h2
        exact List.length_pos.mpr this
      have hdropne : content.drop pos ≠ [] := by
        intro h
        apply (by simpa using h2 : data ≠ [])
        rw [hdata, h, List.take_nil]
      have hposlt : pos < content.length := by
        by_contra h
        exact hdropne (List.drop_eq_nil_iff.mpr (by omega))
      have hklen : k = min cs (content.length - pos) := by
        rw [hk, hdata, List.length_take, List.length_drop]
      rw [List.flatten_cons]
      rw [ih cs (pos + k) (by omega) hcs]
      have hdd : content.drop (pos + k) = (content.drop pos).drop k := by
        rw [List.drop_drop]
      rw [hdd]
      have hdk : data = (content.drop pos).take k := by
        rw [hdata, List.take_eq_take, List.length_drop]
        omega
      rw [hdk, List.take_append_drop]

/-- C8: with an inclusive end point `e ≥ start` and a start inside the file,
the chunks of `read_file` concatenate to exactly the bytes from `start`
through `min e (length - 1)` inclusive; with no end point they concatenate to
the bytes from `start` to end of file. -/
theorem read_file_yields_requested_range (content : List Nat) (start e cs : Nat)
    (hs : start < content.length) (hse : start ≤ e) (hcs : 0 < cs) :
    (read_file content start (some (e : Int)) cs).flatten
        = (content.drop start).take (min e (content.length - 1) + 1 - start)
    ∧ (read_file content start none cs).flatten = content.drop start := by
  constructor
  · rw [read_file, readLoop_flatten_some content (e : Int) _ cs start (by omega) hcs]
    rw [List.take_eq_take, List.length_drop]
    omega
  · exact readLoop_flatten_none content _ cs start (by omega) hcs

/-- Witness for `read_file_yields_requested_range` on the 4-byte file
`[10, 20, 30, 40]`, reading from offset 1 with inclusive end 2 and chunk
size 1. -/
theorem read_file_yields_requested_range_witness :
    (read_file [10, 20, 30, 40] 1 (some ((2 : Nat) : Int)) 1).flatten
        = ([10, 20, 30, 40].drop 1).take (min 2 ([10, 20, 30, 40].length - 1) + 1 - 1)
    ∧ (read_file [10, 20, 30, 40] 1 none 1).flatten = [10, 20, 30, 40].drop 1 :=
  read_file_yields_requested_range [10, 20, 30, 40] 1 2 1 (by decide) (by decide) (by decide)

/-! ### Overlap-loop invariants (claims C3, C5)

The overlap-resolution loop only resolves *full containment* between the
target range and existing files.  What it really preserves is
containment-freedom (`rangeNC`), not the pairwise disjointness the spec
claims; the lemmas below establish that and are then assembled into the
amended C3 and C5 theorems. -/

/-- `all` restricts along a sublist. -/
theorem all_of_sublist {p : Entry → Bool} {l l' : List Entry} (hs : List.Sublist l' l)
    (h : l.all p = true) : l'.all p = true := by
  rw [List.all_eq_true] at h ⊢
  exact fun x hx => h x (hs.subset hx)

/-- `pairwiseB` restricts along a sublist. -/
theorem pairwiseB_sublist {r : Entry → Entry → Bool} {l l' : List Entry}
    (hs : List.Sublist l' l) (h : pairwiseB r l = true) : pairwiseB r l' = true := by
  induction hs with
  | slnil => exact h
  | cons a hsub ih =>
    simp only [pairwiseB, Bool.and_eq_true] at h
    exact ih h.2
  | cons₂ a hsub ih =>
    simp only [pairwiseB, Bool.and_eq_true] at h ⊢
    exact ⟨all_of_sublist hsub h.1, ih h.2⟩

/-- `pairwiseB` extends to an appended element related to everything. -/
theorem pairwiseB_append_singleton {r : Entry → Entry → Bool} :
    ∀ {l : List Entry} {x : Entry}, pairwiseB r l = true →
      l.all (fun y => r y x) = true → pairwiseB r (l ++ [x]) = true := by
  intro l
  induction l with
  | nil =>
    intro x _ _
    simp [pairwiseB]
  | cons y ys ih =>
    intro x h1 h2
    simp only [pairwiseB, Bool.and_eq_true, List.all_cons] at h1 h2
    simp only [List.cons_append, pairwiseB, Bool.and_eq_true]
    refine ⟨?_, ih h1.2 h2.2⟩
    rw [List.all_eq_true]
    intro z hz
    rcases List.mem_append.mp hz with hz | hz
    · exact List.all_eq_true.mp h1.1 z hz
    · rw [List.mem_singleton.mp hz]
      exact h2.1

/-- Marker files are containment-free with everything. -/
theorem rangeNC_tag_right (y : Entry) (s e : Int) : rangeNC y (.tagFile s e) = true := by
  cases y <;> rfl

/-- Creating the marker file preserves containment-freedom. -/
theorem pairwiseB_createTag (s e : Int) (l : List Entry)
    (h : pairwiseB rangeNC l = true) : pairwiseB rangeNC (createTag s e l) = true := by
  unfold createTag
  split
  · exact h
  · refine pairwiseB_append_singleton h ?_
    rw [List.all_eq_true]
    exact fun y _ => rangeNC_tag_right y s e

/-- Mutual non-containment of ranges gives `rangeNC` for data files. -/
theorem rangeNC_of_ranges {s' e' s e : Int} {d body : List Nat}
    (h : ¬(s' ≤ s ∧ e ≤ e') ∧ ¬(s ≤ s' ∧ e' ≤ e)) :
    rangeNC (.cacheFile s' e' d) (.cacheFile s e body) = true := by
  simp only [rangeNC, Bool.and_eq_true, decide_eq_true_eq]
  exact h

/-- A successful `os_remove` yields the filtered listing. -/
theorem os_remove_eq_some {p : Entry → Bool} {l l' : List Entry}
    (h : os_remove p l = some l') : l' = l.filter (fun x => !(p x)) := by
  unfold os_remove at h
  split at h
  · exact (Option.some.injEq _ _ ▸ h).symm
  · exact absurd h (by simp)

/-- A successful `os_remove` shrinks the listing to a sublist. -/
theorem os_remove_sublist {p : Entry → Bool} {l l' : List Entry}
    (h : os_remove p l = some l') : List.Sublist l' l := by
  rw [os_remove_eq_some h]
  exact List.filter_sublist l

/-- The directory listing carried by any outcome of the overlap loop. -/
def outEntries : OverlapOut → List Entry
  | .subsumed c => c
  | .proceed c => c
  | .raisedFNF c => c

/-- Whatever the loop's outcome, the live listing only lost entries. -/
theorem overlapLoop_sublist (s e : Int) :
    ∀ (snap cur : List Entry), List.Sublist (outEntries (overlapLoop s e snap cur)) cur := by
  intro snap
  induction snap with
  | nil => intro cur; exact List.Sublist.refl _
  | cons x rest ih =>
    intro cur
    cases x with
    | tagFile a b =>
      simp only [overlapLoop]
      exact ih cur
    | cacheFile s0 e0 d0 =>
      simp only [overlapLoop]
      split
      · exact List.Sublist.refl _
      · split
        · cases hrem : os_remove (isCacheName s0 e0) cur with
          | some cur' => exact (ih cur').trans (os_remove_sublist hrem)
          | none => exact List.Sublist.refl _
        · exact ih cur

/-- When the loop lets the write proceed, every data file that survives from
the snapshot neither subsumes the target range nor is superseded by it. -/
theorem overlapLoop_proceed_ranges (s e : Int) :
    ∀ (snap cur cur₂ : List Entry), overlapLoop s e snap cur = .proceed cur₂ →
      ∀ (s' e' : Int) (d : List Nat), Entry.cacheFile s' e' d ∈ snap →
        Entry.cacheFile s' e' d ∈ cur₂ →
        ¬(s' ≤ s ∧ e ≤ e') ∧ ¬(s ≤ s' ∧ e' ≤ e) := by
  intro snap
  induction snap with
  | nil =>
    intro cur cur₂ h s' e' d hsnap hcur₂
    simp at hsnap
  | cons x rest ih =>
    intro cur cur₂ h s' e' d hsnap hcur₂
    cases x with
    | tagFile a b =>
      simp only [overlapLoop] at h
      rcases List.mem_cons.mp hsnap with heq | hsnap'
      · cases heq
      · exact ih cur cur₂ h s' e' d hsnap' hcur₂
    | cacheFile s0 e0 d0 =>
      simp only [overlapLoop] at h
      split at h
      case isTrue h0 => cases h
      case isFalse h0 =>
        split at h
        case isTrue h1 =>
          cases hrem : os_remove (isCacheName s0 e0) cur with
          | none =>
            rw [hrem] at h
            have h' : OverlapOut.raisedFNF cur = OverlapOut.proceed cur₂ := h
            exact OverlapOut.noConfusion h'
          | some cur' =>
            rw [hrem] at h
            have h' : overlapLoop s e rest cur' = OverlapOut.proceed cur₂ := h
            rcases List.mem_cons.mp hsnap with heq | hsnap'
            · exfalso
              injection heq with hs0 he0 hd0
              subst hs0
              subst he0
              subst hd0
              have hsubl : List.Sublist cur₂ cur' := by
                have hter := overlapLoop_sublist s e rest cur'
                rw [h'] at hter
                exact hter
              have hmem : Entry.cacheFile s' e' d ∈ cur' := hsubl.subset hcur₂
              rw [os_remove_eq_some hrem] at hmem
              have hfalse := (List.mem_filter.mp hmem).2
              simp [isCacheName] at hfalse
            · exact ih cur' cur₂ h' s' e' d hsnap' hcur₂
        case isFalse h1 =>
          rcases List.mem_cons.mp hsnap with heq | hsnap'
          · injection heq with hs0 he0 hd0
            subst hs0
            subst he0
            exact ⟨h0, h1⟩
          · exact ih cur cur₂ h s' e' d hsnap' hcur₂

/-- Inserting the target range's data file into a containment-free listing
none of whose files is containment-related to the target keeps the listing
containment-free. -/
theorem pairwiseB_writeDataFile (s e : Int) (body : List Nat) (cur : List Entry)
    (hcur : pairwiseB rangeNC cur = true)
    (hgood : ∀ (s' e' : Int) (d : List Nat), Entry.cacheFile s' e' d ∈ cur →
      ¬(s' ≤ s ∧ e ≤ e') ∧ ¬(s ≤ s' ∧ e' ≤ e)) :
    pairwiseB rangeNC (writeDataFile s e body cur) = true := by
  unfold writeDataFile
  split
  case isTrue hany =>
    exfalso
    rcases List.any_eq_true.mp hany with ⟨x, hx, hpx⟩
    cases x with
    | tagFile a b => simp [isCacheName] at hpx
    | cacheFile s'' e'' d'' =>
      simp only [isCacheName, Bool.and_eq_true, beq_iff_eq] at hpx
      obtain ⟨rfl, rfl⟩ := hpx
      exact (hgood s e d'' hx).1 ⟨le_refl s, le_refl e⟩
  case isFalse hany =>
    refine pairwiseB_append_singleton hcur ?_
    rw [List.all_eq_true]
    intro y hy
    cases y with
    | tagFile a b => rfl
    | cacheFile s' e' d => exact rangeNC_of_ranges (hgood s' e' d hy)

/-- Whatever branch the cleanup handler takes, the reported listing is a
sublist of its input. -/
theorem exceptCleanup_entries_sublist (s e : Int) (cur : List Entry) :
    List.Sublist (dirEntries (exceptCleanup s e cur).dir) cur := by
  unfold exceptCleanup
  split
  · exact List.Sublist.refl _
  next cur' h1 =>
    split
    · exact os_remove_sublist h1
    next cur'' h2 => exact (os_remove_sublist h2).trans (os_remove_sublist h1)

/-- After the fetch-and-write stage on a containment-free listing none of
whose files is containment-related to the target range, the directory is
still containment-free. -/
theorem writeFetchStage_pairwise (s e : Int) (fetch : Int → Int → FetchResult)
    (cur : List Entry) (hcur : pairwiseB rangeNC cur = true)
    (hgood : ∀ (s' e' : Int) (d : List Nat), Entry.cacheFile s' e' d ∈ cur →
      ¬(s' ≤ s ∧ e ≤ e') ∧ ¬(s ≤ s' ∧ e' ≤ e)) :
    pairwiseB rangeNC (dirEntries (writeFetchStage s e fetch cur).dir) = true := by
  unfold writeFetchStage
  split
  · exact pairwiseB_sublist (exceptCleanup_entries_sublist s e cur) hcur
  next bodySoFar _ =>
    exact pairwiseB_sublist (exceptCleanup_entries_sublist s e _)
      (pairwiseB_writeDataFile s e bodySoFar cur hcur hgood)
  next status body _ =>
    split
    · split
      next cur'' hrem =>
        exact pairwiseB_sublist (os_remove_sublist hrem)
          (pairwiseB_writeDataFile s e body cur hcur hgood)
      next hrem =>
        exact pairwiseB_writeDataFile s e body cur hcur hgood
    · exact pairwiseB_sublist (exceptCleanup_entries_sublist s e cur) hcur

/-- After the locked section on a containment-free listing, the directory is
still containment-free: the subsumption abort or an escaping removal error
only shrinks the listing, and the proceed branch inserts a file whose range
is containment-unrelated to every survivor. -/
theorem writeLockedStage_pairwise (s e : Int) (fetch : Int → Int → FetchResult)
    (entries1 : List Entry) (hpw : pairwiseB rangeNC entries1 = true) :
    pairwiseB rangeNC (dirEntries (writeLockedStage s e fetch entries1).dir) = true := by
  unfold writeLockedStage
  split
  next cur hov =>
    have hsub := overlapLoop_sublist s e entries1 entries1
    rw [hov] at hsub
    exact pairwiseB_sublist hsub hpw
  next cur hov =>
    split
    next cur' hrem =>
      have hsub := overlapLoop_sublist s e entries1 entries1
      rw [hov] at hsub
      exact pairwiseB_sublist ((os_remove_sublist hrem).trans hsub) hpw
    next hrem =>
      have hsub := overlapLoop_sublist s e entries1 entries1
      rw [hov] at hsub
      exact pairwiseB_sublist hsub hpw
  next cur hov =>
    have hsub : List.Sublist cur entries1 := by
      have hter := overlapLoop_sublist s e entries1 entries1
      rw [hov] at hter
      exact hter
    have hcur : pairwiseB rangeNC cur = true := pairwiseB_sublist hsub hpw
    have hgood : ∀ (s' e' : Int) (d : List Nat), Entry.cacheFile s' e' d ∈ cur →
        ¬(s' ≤ s ∧ e ≤ e') ∧ ¬(s ≤ s' ∧ e' ≤ e) := fun s' e' d hmem =>
      overlapLoop_proceed_ranges s e entries1 entries1 cur hov s' e' d
        (hsub.subset hmem) hmem
    exact writeFetchStage_pairwise s e fetch cur hcur hgood

/-- C3 amended: a completed `write_cache_file` call preserves the
containment-freedom invariant — no cache file's range fully contains another
cache file's range — which is what the overlap-resolution loop actually
enforces.  (The pairwise-disjointness claimed by the spec is refuted by
`write_overlap_counterexample`: partially overlapping ranges survive.) -/
theorem write_preserves_containment_free (req : RequestInfo)
    (fetch : Int → Int → FetchResult) (dir0 : Option (List Entry))
    (h : pairwiseB rangeNC (dirEntries dir0) = true) :
    pairwiseB rangeNC (dirEntries (write_cache_file req fetch dir0).dir) = true := by
  unfold write_cache_file
  split
  · exact h
  next s e hr =>
    exact writeLockedStage_pairwise s e fetch _ (pairwiseB_createTag s e _ h)

/-- Witness for `write_preserves_containment_free`: the head write of the
counterexample scenario, starting from the (trivially containment-free)
empty directory. -/
theorem write_preserves_containment_free_witness :
    pairwiseB rangeNC (dirEntries (some ([] : List Entry))) = true
    ∧ pairwiseB rangeNC
        (dirEntries (write_cache_file reqHead (fun _ _ => .resp 206 [1]) (some [])).dir)
        = true :=
  ⟨by decide,
    write_preserves_containment_free reqHead (fun _ _ => .resp 206 [1]) (some []) (by decide)⟩

/-- In a containment-free snapshot containing a file that subsumes the
target range, the overlap loop aborts without deleting anything: a file that
the target would supersede would be contained in the subsuming file,
contradicting containment-freedom. -/
theorem overlapLoop_subsume_id (s e : Int) :
    ∀ (snap cur : List Entry),
      (∃ sF eF dF, Entry.cacheFile sF eF dF ∈ snap ∧ sF ≤ s ∧ e ≤ eF) →
      pairwiseB rangeNC snap = true →
      overlapLoop s e snap cur = .subsumed cur := by
  intro snap
  induction snap with
  | nil =>
    rintro cur ⟨sF, eF, dF, hmem, -, -⟩ -
    simp at hmem
  | cons x rest ih =>
    rintro cur ⟨sF, eF, dF, hmem, hsF, heF⟩ hpw
    cases x with
    | tagFile a b =>
      simp only [overlapLoop]
      refine ih cur ⟨sF, eF, dF, ?_, hsF, heF⟩ ?_
      · rcases List.mem_cons.mp hmem with heq | h'
        · cases heq
        · exact h'
      · simp only [pairwiseB, Bool.and_eq_true] at hpw
        exact hpw.2
    | cacheFile s0 e0 d0 =>
      simp only [overlapLoop]
      by_cases h0 : s0 ≤ s ∧ e ≤ e0
      · rw [if_pos h0]
      · rw [if_neg h0]
        have hmem' : Entry.cacheFile sF eF dF ∈ rest := by
          rcases List.mem_cons.mp hmem with heq | h'
          · exfalso
            injection heq with h1 h2 h3
            subst h1
            subst h2
            exact h0 ⟨hsF, heF⟩
          · exact h'
        simp only [pairwiseB, Bool.and_eq_true] at hpw
        by_cases h1 : s ≤ s0 ∧ e0 ≤ e
        · exfalso
          have hall := List.all_eq_true.mp hpw.1 _ hmem'
          simp only [rangeNC, Bool.and_eq_true, decide_eq_true_eq] at hall
          exact hall.2 ⟨le_trans hsF h1.1, le_trans h1.2 heF⟩
        · rw [if_neg h1]
          exact ih cur ⟨sF, eF, dF, hmem', hsF, heF⟩ hpw.2

/-- C5 amended: when the derived target range is fully contained in an
existing cache file, the directory is containment-free, and no leftover
marker for the target range is present, the call returns `False`, leaves the
directory exactly as it was, and never issues the upstream GET.  (Without
the containment-freedom hypothesis the loop can delete a superseded file
before reaching the subsuming one — see `subsumed_write_deletes_file`.) -/
theorem write_subsumed_is_noop (req : RequestInfo) (fetch : Int → Int → FetchResult)
    (entries : List Entry) (s e sF eF : Int) (dF : List Nat)
    (hrange : deriveRange req = some (s, e))
    (hmem : Entry.cacheFile sF eF dF ∈ entries) (hsF : sF ≤ s) (heF : e ≤ eF)
    (hnc : pairwiseB rangeNC entries = true)
    (hnt : entries.any (isTagName s e) = false) :
    write_cache_file req fetch (some entries)
      = ⟨.value (some false), some entries, false⟩ := by
  have htag : createTag s e entries = entries ++ [Entry.tagFile s e] := by
    simp [createTag, hnt]
  have hpwtag : pairwiseB rangeNC (entries ++ [Entry.tagFile s e]) = true :=
    pairwiseB_append_singleton hnc
      (by rw [List.all_eq_true]; exact fun y _ => rangeNC_tag_right y s e)
  have hloop := overlapLoop_subsume_id s e (entries ++ [Entry.tagFile s e])
      (entries ++ [Entry.tagFile s e])
      ⟨sF, eF, dF, List.mem_append_left _ hmem, hsF, heF⟩ hpwtag
  have hrem : os_remove (isTagName s e) (entries ++ [Entry.tagFile s e]) = some entries := by
    unfold os_remove
    rw [if_pos]
    · have h1 : entries.filter (fun x => !(isTagName s e x)) = entries := by
        apply List.filter_eq_self.mpr
        intro x hx
        have hfx := List.any_eq_false.mp hnt x hx
        simp only [Bool.not_eq_true] at hfx
        simp [hfx]
      have h2 : [Entry.tagFile s e].filter (fun x => !(isTagName s e x)) = [] := by
        simp [isTagName]
      rw [List.filter_append, h1, h2, List.append_nil]
    · rw [List.any_append]
      simp [isTagName]
  simp only [write_cache_file, hrange, Option.getD_some, htag]
  unfold writeLockedStage
  simp only [hloop, hrem]

/-- Witness for `write_subsumed_is_noop`: a `HIT` write whose target
`[0, 999]` is contained in the existing `cache_file_0_1499`. -/
theorem write_subsumed_is_noop_witness :
    write_cache_file reqHIT (fun _ _ => .exn) (some [Entry.cacheFile 0 1499 [3]])
      = ⟨.value (some false), some [Entry.cacheFile 0 1499 [3]], false⟩ :=
  write_subsumed_is_noop reqHIT (fun _ _ => .exn) [Entry.cacheFile 0 1499 [3]]
    0 999 0 1499 [3] (by decide) (by decide) (by decide) (by decide) (by decide) (by decide)

end EmbyCache
